import Mathlib

/-!
Verification of the paper-ranking script `CongApp.py`.

The script gathers candidate papers connected to an anchor paper (references,
citations, recommendations), filters and deduplicates them into a pool, scores
each candidate by a weighted sum of min-max-normalized features, and returns a
stable, descending top-k.  This file shallowly embeds the pure algorithmic
parts of the script into Lean.  Python floats are modelled by `ℚ`; Python
dictionaries holding paper metadata are modelled by the `Cand` structure with
`Option` fields for keys whose values may be absent (JSON `null` or missing).
Transcendental raw features (`math.exp`, `math.log`, TF-IDF cosine similarity
from sklearn) cannot be evaluated exactly, so the ranking pipeline takes the
three raw feature maps as parameters; everything downstream of the raw
features (normalization, weighting, sorting, truncation) is embedded exactly.
-/

/-- A paper record, as the script's dictionaries store it.  `none` models a
missing key or an explicit `null` coming from the API.  Fields the claims do
not touch (authors, venue, influentialCitationCount, ...) are omitted. -/
structure Cand where
  paperId : Option String := none
  title : Option String := none
  abstract : Option String := none
  year : Option Int := none
  citationCount : Option Int := none
deriving Repr, DecidableEq

/-- Python `max(lst)` on a nonempty list of floats (`ℚ` model); `0` is a junk
value for the empty list, which the script never reaches (`_norm` returns
early on an empty list). -/
def maxQ : List ℚ → ℚ
  | [] => 0
  | [x] => x
  | x :: y :: t => max x (maxQ (y :: t))

/-- Python `min(lst)` on a nonempty list (see `maxQ`). -/
def minQ : List ℚ → ℚ
  | [] => 0
  | [x] => x
  | x :: y :: t => min x (minQ (y :: t))

/-- The `_norm` helper of `find_top_papers_for_paper` (CongApp.py lines
325-331):

    if not lst: return lst
    mx = max(lst); mn = min(lst)
    rng = mx - mn if mx != mn else 1.0
    return [(x - mn) / rng for x in lst]
-/
def pyNorm (lst : List ℚ) : List ℚ :=
  match lst with
  | [] => []
  | _ :: _ =>
    let mx := maxQ lst
    let mn := minQ lst
    let rng := if mx ≠ mn then mx - mn else 1
    lst.map fun x => (x - mn) / rng

theorem mem_le_maxQ {x : ℚ} : ∀ {l : List ℚ}, x ∈ l → x ≤ maxQ l
  | [], h => by cases h
  | [y], h => by
      rcases List.mem_singleton.mp h with rfl
      exact le_of_eq rfl
  | y :: z :: t, h => by
      rcases List.mem_cons.mp h with rfl | h2
      · exact le_max_left _ _
      · exact le_trans (mem_le_maxQ h2) (le_max_right _ _)

theorem minQ_le_mem {x : ℚ} : ∀ {l : List ℚ}, x ∈ l → minQ l ≤ x
  | [], h => by cases h
  | [y], h => by
      rcases List.mem_singleton.mp h with rfl
      exact le_of_eq rfl
  | y :: z :: t, h => by
      rcases List.mem_cons.mp h with rfl | h2
      · exact min_le_left _ _
      · exact le_trans (min_le_right _ _) (minQ_le_mem h2)

theorem minQ_le_maxQ {l : List ℚ} (h : l ≠ []) : minQ l ≤ maxQ l := by
  match l with
  | [] => exact absurd rfl h
  | x :: t =>
    exact le_trans (minQ_le_mem (List.mem_cons_self x t)) (mem_le_maxQ (List.mem_cons_self x t))

theorem maxQ_mem : ∀ {l : List ℚ}, l ≠ [] → maxQ l ∈ l
  | [], h => absurd rfl h
  | [x], _ => by simp [maxQ]
  | x :: y :: t, _ => by
      rcases max_choice x (maxQ (y :: t)) with h | h
      · simp [maxQ, h]
      · simp only [maxQ, h]
        exact List.mem_cons_of_mem _ (maxQ_mem (by simp))

theorem minQ_mem : ∀ {l : List ℚ}, l ≠ [] → minQ l ∈ l
  | [], h => absurd rfl h
  | [x], _ => by simp [minQ]
  | x :: y :: t, _ => by
      rcases min_choice x (minQ (y :: t)) with h | h
      · simp [minQ, h]
      · simp only [minQ, h]
        exact List.mem_cons_of_mem _ (minQ_mem (by simp))

theorem pyNorm_length (l : List ℚ) : (pyNorm l).length = l.length := by
  cases l with
  | nil => rfl
  | cons x t => simp [pyNorm]

theorem pyNorm_mem_bounds {l : List ℚ} {z : ℚ} (hz : z ∈ pyNorm l) : 0 ≤ z ∧ z ≤ 1 := by
  cases l with
  | nil => simp [pyNorm] at hz
  | cons x t =>
    simp only [pyNorm, List.mem_map] at hz
    obtain ⟨y, hy, rfl⟩ := hz
    have hmn : minQ (x :: t) ≤ y := minQ_le_mem hy
    have hmx : y ≤ maxQ (x :: t) := mem_le_maxQ hy
    by_cases hne : maxQ (x :: t) ≠ minQ (x :: t)
    · have hlt : minQ (x :: t) < maxQ (x :: t) :=
        lt_of_le_of_ne (minQ_le_maxQ (List.cons_ne_nil x t)) (Ne.symm hne)
      have hpos : 0 < maxQ (x :: t) - minQ (x :: t) := by linarith
      simp only [if_pos hne]
      constructor
      · exact div_nonneg (by linarith) (le_of_lt hpos)
      · rw [div_le_one hpos]
        linarith
    · push_neg at hne
      have hy0 : y = minQ (x :: t) := le_antisymm (hne ▸ hmx) hmn
      simp only [if_neg (not_not_intro hne)]
      rw [hy0]
      norm_num

theorem pyNorm_allEq {l : List ℚ} (h : maxQ l = minQ l) {z : ℚ} (hz : z ∈ pyNorm l) :
    z = 0 := by
  cases l with
  | nil => simp [pyNorm] at hz
  | cons x t =>
    simp only [pyNorm, List.mem_map] at hz
    obtain ⟨y, hy, rfl⟩ := hz
    have hmn : minQ (x :: t) ≤ y := minQ_le_mem hy
    have hmx : y ≤ maxQ (x :: t) := mem_le_maxQ hy
    have hy0 : y = minQ (x :: t) := le_antisymm (h ▸ hmx) hmn
    simp only [if_neg (not_not_intro h)]
    rw [hy0]
    ring

/-- C2: the min-max normalizer `_norm` returns a list of the same length (and
order, being a `map` over the input); every output lies in `[0, 1]`; when all
raw values are equal (in particular for the single-element pool) every output
is exactly `0`; and the divisor it uses is never zero, so no division-by-zero
(or NaN) can arise. -/
theorem norm_spec (l : List ℚ) :
    (pyNorm l).length = l.length ∧
    (∀ z ∈ pyNorm l, 0 ≤ z ∧ z ≤ 1) ∧
    ((∀ x ∈ l, ∀ y ∈ l, x = y) → ∀ z ∈ pyNorm l, z = 0) ∧
    (∀ a : ℚ, pyNorm [a] = [0]) ∧
    (if maxQ l ≠ minQ l then maxQ l - minQ l else 1) ≠ 0 := by
  refine ⟨pyNorm_length l, fun z hz => pyNorm_mem_bounds hz, ?_, ?_, ?_⟩
  · intro hall z hz
    apply pyNorm_allEq ?_ hz
    cases l with
    | nil => rfl
    | cons x t =>
      exact hall _ (maxQ_mem (List.cons_ne_nil x t)) _ (minQ_mem (List.cons_ne_nil x t))
  · intro a
    simp [pyNorm, maxQ, minQ]
  · by_cases h : maxQ l ≠ minQ l
    · rw [if_pos h]
      intro hc
      exact h (by linarith [sub_eq_zero.mp hc])
    · rw [if_neg h]
      norm_num

/-- Witness for `norm_spec`: on the concrete pools `[1, 3]` and `[2, 2]` the
normalizer stays in `[0, 1]`, and the all-equal pool normalizes to zeros. -/
theorem norm_spec_witness :
    ((0 : ℚ) ≤ (pyNorm [(1 : ℚ), 3]).headI ∧ (pyNorm [(1 : ℚ), 3]).headI ≤ 1) ∧
    (pyNorm [(2 : ℚ), 2]).headI = 0 := by
  constructor
  · exact (norm_spec [(1 : ℚ), 3]).2.1 _ (by norm_num [pyNorm, maxQ, minQ])
  · exact (norm_spec [(2 : ℚ), 2]).2.2.1 (by norm_num) _ (by norm_num [pyNorm, maxQ, minQ])

/-- C8 counterexample: `_norm` compares `max` and `min` with exact `!=`, not
with an epsilon.  For the pool `[0, 10⁻¹³]` the range `10⁻¹³` is below the
claimed epsilon `10⁻¹²`, yet the output is `[0, 1]`, not all zeros. -/
theorem norm_no_epsilon_counterexample :
    maxQ [0, (1 : ℚ) / 10 ^ 13] - minQ [0, (1 : ℚ) / 10 ^ 13] < 1 / 10 ^ 12 ∧
    pyNorm [0, (1 : ℚ) / 10 ^ 13] = [0, 1] := by
  constructor
  · norm_num [maxQ, minQ]
  · norm_num [pyNorm, maxQ, minQ]

/-- C8 amended: the degenerate-range guard of `_norm` fires exactly when
`max(values)` equals `min(values)`; in that case every output is `0`.  A pool
whose raw values differ by any nonzero amount, however tiny, is rescaled by
`(x - min) / (max - min)` instead of being zeroed. -/
theorem norm_exact_equality_guard (l : List ℚ) (h : maxQ l = minQ l) :
    ∀ z ∈ pyNorm l, z = 0 :=
  fun _ hz => pyNorm_allEq h hz

/-- Witness for `norm_exact_equality_guard` at the pool `[5, 5]`. -/
theorem norm_exact_equality_guard_witness : (pyNorm [(5 : ℚ), 5]).headI = 0 :=
  norm_exact_equality_guard [(5 : ℚ), 5] (by norm_num [maxQ, minQ]) _
    (by norm_num [pyNorm, maxQ, minQ])

/-- Python's `list.sort(key=..., reverse=True)` (CongApp.py line 343) is a
stable sort placing larger keys first.  `List.insertionSort` with the relation
`fun a b => f b ≤ f a` is exactly that stable descending sort: an element kept
earlier stays before a later element on equal keys (`sortByDesc_lex` below
proves this stability, so the two extensionally agree). -/
def sortByDesc {α β : Type*} [LinearOrder β] (f : α → β) (l : List α) : List α :=
  List.insertionSort (fun a b => f b ≤ f a) l

theorem sortByDesc_perm {α β : Type*} [LinearOrder β] (f : α → β) (l : List α) :
    List.Perm (sortByDesc f l) l :=
  List.perm_insertionSort _ l

theorem sortByDesc_length {α β : Type*} [LinearOrder β] (f : α → β) (l : List α) :
    (sortByDesc f l).length = l.length :=
  (sortByDesc_perm f l).length_eq

theorem sortByDesc_sorted {α β : Type*} [LinearOrder β] (f : α → β) (l : List α) :
    (sortByDesc f l).Pairwise (fun a b => f b ≤ f a) := by
  haveI : IsTotal α (fun a b => f b ≤ f a) := ⟨fun a b => le_total (f b) (f a)⟩
  haveI : IsTrans α (fun a b => f b ≤ f a) := ⟨fun a b c h1 h2 => le_trans h2 h1⟩
  exact List.sorted_insertionSort _ l

/-- The lexicographic order "key strictly larger, or key equal and discovery
index smaller" that a stable descending sort realizes. -/
def lexLt {α β : Type*} [LinearOrder β] (f : α → β) (g : α → Nat) (x y : α) : Prop :=
  f y < f x ∨ (f x = f y ∧ g x < g y)

theorem orderedInsert_lex {α β : Type*} [LinearOrder β] (f : α → β) (g : α → Nat) (a : α) :
    ∀ {l : List α}, l.Pairwise (lexLt f g) → (∀ b ∈ l, g a < g b) →
      (List.orderedInsert (fun x y => f y ≤ f x) a l).Pairwise (lexLt f g)
  | [], _, _ => List.pairwise_singleton _ _
  | b :: t, hl, ha => by
    rw [List.orderedInsert]
    rcases List.pairwise_cons.mp hl with ⟨hb, ht⟩
    by_cases hr : f b ≤ f a
    · rw [if_pos hr]
      refine List.pairwise_cons.mpr ⟨?_, hl⟩
      intro c hc
      rcases List.mem_cons.mp hc with rfl | hct
      · rcases lt_or_eq_of_le hr with h | h
        · exact Or.inl h
        · exact Or.inr ⟨h.symm, ha _ (List.mem_cons_self _ _)⟩
      · rcases hb c hct with h | ⟨he, _⟩
        · exact Or.inl (lt_of_lt_of_le h hr)
        · rcases lt_or_eq_of_le (he ▸ hr : f c ≤ f a) with h2 | h2
          · exact Or.inl h2
          · exact Or.inr ⟨h2.symm, ha _ (List.mem_cons_of_mem b hct)⟩
    · rw [if_neg hr]
      refine List.pairwise_cons.mpr ⟨?_, ?_⟩
      · intro c hc
        rcases (List.mem_orderedInsert _).mp hc with rfl | hct
        · exact Or.inl (lt_of_not_le hr)
        · exact hb c hct
      · exact orderedInsert_lex f g a ht fun c hc => ha _ (List.mem_cons_of_mem b hc)

/-- Stability of the descending sort: if the input is tagged with strictly
increasing discovery indices `g`, the output is sorted lexicographically by
(key descending, discovery index ascending) — exact-key ties keep the original
order, as Python's stable `list.sort` does. -/
theorem sortByDesc_lex {α β : Type*} [LinearOrder β] (f : α → β) (g : α → Nat) :
    ∀ l : List α, l.Pairwise (fun x y => g x < g y) →
      (sortByDesc f l).Pairwise (lexLt f g)
  | [], _ => List.Pairwise.nil
  | a :: t, h => by
    rcases List.pairwise_cons.mp h with ⟨ha, ht⟩
    show (List.orderedInsert _ a (List.insertionSort _ t)).Pairwise (lexLt f g)
    refine orderedInsert_lex f g a (sortByDesc_lex f g t ht) ?_
    intro b hb
    exact ha b ((List.perm_insertionSort _ t).mem_iff.mp hb)

theorem zip_pairwise_fst {α γ : Type*} {R : α → α → Prop} :
    ∀ (l : List α) (s : List γ), l.Pairwise R →
      (l.zip s).Pairwise fun p q => R p.1 q.1
  | [], _, _ => List.Pairwise.nil
  | _ :: _, [], _ => List.Pairwise.nil
  | a :: l, c :: s, h => by
    rcases List.pairwise_cons.mp h with ⟨ha, hl⟩
    refine List.pairwise_cons.mpr ⟨?_, zip_pairwise_fst l s hl⟩
    intro q hq
    exact ha q.1 (List.of_mem_zip hq).1

/-- Lines 333-341 of `find_top_papers_for_paper`: the three raw feature
vectors are normalized with `_norm` and each candidate's final score is
`w_sim * sim[i] + w_rec * rec[i] + w_cit * cit[i]` (a missing index defaults
to `0.0`, mirroring `sims[i] if i < len(sims) else 0.0`).  The raw feature
maps `fsim`, `frec`, `fcit` are parameters of the embedding: in the source
they are the TF-IDF cosine similarity, `exp(-age / 3.0)` recency decay and
`log(1 + citations)` — transcendental quantities no ranking step below
depends on. -/
def pipelineScores {α : Type*} (fsim frec fcit : α → ℚ) (ws wr wc : ℚ) (l : List α) :
    List ℚ :=
  let sims := pyNorm (l.map fsim)
  let recs := pyNorm (l.map frec)
  let cits := pyNorm (l.map fcit)
  (List.range l.length).map fun i => ws * sims.getD i 0 + wr * recs.getD i 0 + wc * cits.getD i 0

/-- Lines 337-344: attach the weighted score to each candidate, sort by score
descending (stable), and truncate to `top_k`. -/
def rankPipeline {α : Type*} (fsim frec fcit : α → ℚ) (ws wr wc : ℚ) (topK : Nat)
    (l : List α) : List (α × ℚ) :=
  (sortByDesc Prod.snd (l.zip (pipelineScores fsim frec fcit ws wr wc l))).take topK

theorem pipelineScores_length {α : Type*} (fsim frec fcit : α → ℚ) (ws wr wc : ℚ)
    (l : List α) : (pipelineScores fsim frec fcit ws wr wc l).length = l.length := by
  simp [pipelineScores]

instance lexLtDec {α β : Type*} [LinearOrder β] (f : α → β) (g : α → Nat) :
    DecidableRel (lexLt f g) := fun x y =>
  inferInstanceAs (Decidable (f y < f x ∨ (f x = f y ∧ g x < g y)))

/-- C1: for every candidate pool and every `topK`, the ranking step of
`find_top_papers_for_paper` (normalize, weight, sort, truncate, lines 333-344)
returns `min(topK, poolSize)` scored candidates, sorted by final weighted
score in non-increasing order; and for any strictly increasing discovery-index
tagging `g` of the pool, exact score ties keep the discovery order — the sort
is stable. -/
theorem rank_spec (fsim frec fcit : Cand → ℚ) (ws wr wc : ℚ) (topK : Nat)
    (l : List Cand) (g : Cand → Nat) :
    (rankPipeline fsim frec fcit ws wr wc topK l).length = min topK l.length ∧
    (rankPipeline fsim frec fcit ws wr wc topK l).Pairwise (fun p q => q.2 ≤ p.2) ∧
    (l.Pairwise (fun a b => g a < g b) →
      (rankPipeline fsim frec fcit ws wr wc topK l).Pairwise
        (lexLt Prod.snd fun p => g p.1)) := by
  have hzip : (l.zip (pipelineScores fsim frec fcit ws wr wc l)).length = l.length := by
    simp [pipelineScores_length]
  refine ⟨?_, ?_, ?_⟩
  · simp [rankPipeline, sortByDesc_length, hzip]
  · exact (sortByDesc_sorted Prod.snd _).sublist (List.take_sublist _ _)
  · intro hp
    exact (sortByDesc_lex Prod.snd (fun p => g p.1) _
      (zip_pairwise_fst l _ hp)).sublist (List.take_sublist _ _)

/-- Two concrete candidate records used to exercise the ranking pipeline. -/
def candA : Cand := { paperId := some "A" }

def candB : Cand := { paperId := some "B" }

/-- Witness for `rank_spec`: a concrete two-candidate pool whose scores tie
exactly keeps its discovery order in the ranked output. -/
theorem rank_spec_witness :
    ([candA, candB] : List Cand).Pairwise
      (fun a b => (fun c : Cand => if c.paperId = some "A" then 0 else 1) a <
        (fun c : Cand => if c.paperId = some "A" then 0 else 1) b) ∧
    (rankPipeline (fun _ => 0) (fun _ => 0) (fun _ => 0) 1 1 1 2
        [candA, candB]).Pairwise
      (lexLt Prod.snd fun p => if p.1.paperId = some "A" then 0 else 1) :=
  ⟨by decide,
    (rank_spec (fun _ => 0) (fun _ => 0) (fun _ => 0) 1 1 1 2 [candA, candB]
      (fun c => if c.paperId = some "A" then 0 else 1)).2.2 (by decide)⟩

/-- The year filter of the three gathering loops (`y = rec.get("year") or 0;
if y and y < min_year: continue`, CongApp.py lines 221-223, 232-234, 244-246):
a record is skipped iff its year value is truthy (nonzero) and strictly below
`min_year`.  A missing year (`None`) and the literal year `0` are both falsy
under `if y`, so they survive. -/
def yearSkip (minYear : Int) (c : Cand) : Bool :=
  let y := c.year.getD 0
  decide (y ≠ 0) && decide (y < minYear)

/-- First-match lookup in the insertion-ordered association list that models
the Python dict `candidates`. -/
def poolFind (rid : String) : List (String × Cand) → Option Cand
  | [] => none
  | kv :: t => if kv.1 = rid then some kv.2 else poolFind rid t

/-- The per-record body of the gathering loops (lines 217-248): skip a record
with a falsy (`None` or empty) identifier, skip it when the year filter
fires, and insert it only if its identifier is not yet a key of the pool
(first occurrence wins, `if rid not in candidates`). -/
def addCand (minYear : Int) (pool : List (String × Cand)) (c : Cand) :
    List (String × Cand) :=
  match c.paperId with
  | none => pool
  | some rid =>
    if rid = "" then pool
    else if yearSkip minYear c then pool
    else if (poolFind rid pool).isSome then pool
    else pool ++ [(rid, c)]

/-- Lines 214-248 of `find_top_papers_for_paper`: fold the fetched reference
list, then the citation list, then the recommendation list into the
deduplicating candidate pool. -/
def buildPool (minYear : Int) (refs cits recs : List Cand) : List (String × Cand) :=
  recs.foldl (addCand minYear) (cits.foldl (addCand minYear) (refs.foldl (addCand minYear) []))

/-- A record survives the identifier and year filters of the gathering loops. -/
def candKeeps (minYear : Int) (c : Cand) : Bool :=
  (match c.paperId with
   | none => false
   | some s => decide (s ≠ "")) && !(yearSkip minYear c)

/-- First-some choice, modelling "the pool already holds this key". -/
def optOr (x y : Option Cand) : Option Cand :=
  match x with
  | some v => some v
  | none => y

theorem optOr_none_left (y : Option Cand) : optOr none y = y := rfl

theorem optOr_none_right (x : Option Cand) : optOr x none = x := by
  cases x <;> rfl

theorem optOr_some_left (v : Cand) (y : Option Cand) : optOr (some v) y = some v := rfl

theorem poolFind_append (rid : String) (p q : List (String × Cand)) :
    poolFind rid (p ++ q) = optOr (poolFind rid p) (poolFind rid q) := by
  induction p with
  | nil => simp [poolFind, optOr]
  | cons kv t ih =>
    by_cases h : kv.1 = rid
    · simp [poolFind, h, optOr]
    · simp [poolFind, h, ih]

theorem poolFind_singleton (rid cid : String) (c : Cand) :
    poolFind rid [(cid, c)] = if cid = rid then some c else none := by
  simp [poolFind]

theorem addCand_of_not_keeps {m : Int} {c : Cand} (pool : List (String × Cand))
    (h : candKeeps m c = false) : addCand m pool c = pool := by
  unfold candKeeps at h
  match hc : c.paperId with
  | none => simp [addCand, hc]
  | some rid =>
    rw [hc] at h
    simp only [Bool.and_eq_false_iff, decide_eq_false_iff_not, not_not] at h
    rcases h with rfl | h
    · simp [addCand, hc]
    · have hys : yearSkip m c = true := by simpa using h
      by_cases he : rid = ""
      · simp [addCand, hc, he]
      · simp [addCand, hc, he, hys]

theorem candKeeps_elim {m : Int} {c : Cand} (hk : candKeeps m c = true) :
    ∃ cid, c.paperId = some cid ∧ cid ≠ "" ∧ yearSkip m c = false := by
  unfold candKeeps at hk
  match hcp : c.paperId with
  | none => rw [hcp] at hk; simp at hk
  | some cid =>
    rw [hcp] at hk
    simp only [Bool.and_eq_true, decide_eq_true_eq, Bool.not_eq_true'] at hk
    exact ⟨cid, rfl, hk.1, hk.2⟩

theorem addCand_of_keeps {m : Int} {c : Cand} {cid : String} (pool : List (String × Cand))
    (hcp : c.paperId = some cid) (hne : cid ≠ "") (hys : yearSkip m c = false) :
    addCand m pool c =
      if (poolFind cid pool).isSome = true then pool else pool ++ [(cid, c)] := by
  simp only [addCand, hcp]
  rw [if_neg hne, hys]
  simp

theorem optionCandCases (o : Option Cand) : o = none ∨ ∃ v, o = some v := by
  cases o with
  | none => exact Or.inl rfl
  | some v => exact Or.inr ⟨v, rfl⟩

theorem foldl_addCand_poolFind (m : Int) :
    ∀ (stream : List Cand) (pool : List (String × Cand)) (rid : String),
      poolFind rid (stream.foldl (addCand m) pool) =
        optOr (poolFind rid pool)
          ((stream.filter (candKeeps m)).find? fun c => c.paperId == some rid)
  | [], pool, rid => by simp [optOr_none_right]
  | c :: rest, pool, rid => by
    rw [List.foldl_cons, foldl_addCand_poolFind m rest (addCand m pool c) rid]
    by_cases hk : candKeeps m c = true
    · obtain ⟨cid, hcp, hne, hys⟩ := candKeeps_elim hk
      rw [List.filter_cons_of_pos hk, List.find?_cons]
      rw [addCand_of_keeps pool hcp hne hys]
      have hfind : (c.paperId == some rid) = decide (cid = rid) := by
        rw [hcp]
        by_cases h : cid = rid <;> simp [h]
      rw [hfind]
      obtain hpf | ⟨v, hpf⟩ := optionCandCases (poolFind cid pool)
      · have hs : ¬(poolFind cid pool).isSome = true := by rw [hpf]; simp
        rw [if_neg hs, poolFind_append]
        by_cases hid : cid = rid
        · subst hid
          rw [hpf, optOr_none_left, poolFind_singleton, if_pos rfl]
          simp [optOr]
        · rw [poolFind_singleton, if_neg hid, optOr_none_right]
          have hd : decide (cid = rid) = false := by simp [hid]
          rw [hd]
      · have hs : (poolFind cid pool).isSome = true := by rw [hpf]; rfl
        rw [if_pos hs]
        by_cases hid : cid = rid
        · subst hid
          rw [hpf]
          simp [optOr]
        · have hd : decide (cid = rid) = false := by simp [hid]
          rw [hd]
    · have hk2 : candKeeps m c = false := by simpa using hk
      rw [addCand_of_not_keeps pool hk2]
      rw [List.filter_cons_of_neg (by simp [hk2])]

theorem poolFind_eq_none_iff (rid : String) :
    ∀ pool : List (String × Cand), poolFind rid pool = none ↔ rid ∉ pool.map Prod.fst
  | [] => by simp [poolFind]
  | kv :: t => by
    by_cases h : kv.1 = rid
    · simp [poolFind, h]
    · simp only [poolFind, if_neg h, List.map_cons, List.mem_cons]
      rw [poolFind_eq_none_iff rid t]
      constructor
      · intro hn
        rintro (rfl | hmem)
        · exact h rfl
        · exact hn hmem
      · intro hn hmem
        exact hn (Or.inr hmem)

theorem foldl_addCand_nodup (m : Int) :
    ∀ (stream : List Cand) (pool : List (String × Cand)),
      (pool.map Prod.fst).Nodup → ((stream.foldl (addCand m) pool).map Prod.fst).Nodup
  | [], _, h => h
  | c :: rest, pool, h => by
    rw [List.foldl_cons]
    apply foldl_addCand_nodup m rest
    by_cases hk : candKeeps m c = true
    · obtain ⟨cid, hcp, hne, hys⟩ := candKeeps_elim hk
      rw [addCand_of_keeps pool hcp hne hys]
      obtain hpf | ⟨v, hpf⟩ := optionCandCases (poolFind cid pool)
      · have hs : ¬(poolFind cid pool).isSome = true := by rw [hpf]; simp
        rw [if_neg hs, List.map_append]
        have hnotin : cid ∉ pool.map Prod.fst := (poolFind_eq_none_iff cid pool).mp hpf
        refine List.Nodup.append h (List.nodup_singleton cid) ?_
        intro a ha hb
        simp only [List.map_cons, List.map_nil, List.mem_singleton] at hb
        subst hb
        exact hnotin ha
      · have hs : (poolFind cid pool).isSome = true := by rw [hpf]; rfl
        rw [if_pos hs]
        exact h
    · rw [addCand_of_not_keeps pool (by simpa using hk)]
      exact h

theorem foldl_addCand_mem (m : Int) :
    ∀ (stream : List Cand) (pool : List (String × Cand)),
      (∀ kv ∈ pool, kv.2.paperId = some kv.1 ∧ kv.1 ≠ "" ∧ yearSkip m kv.2 = false) →
      ∀ kv ∈ stream.foldl (addCand m) pool,
        kv.2.paperId = some kv.1 ∧ kv.1 ≠ "" ∧ yearSkip m kv.2 = false
  | [], _, h => h
  | c :: rest, pool, h => by
    rw [List.foldl_cons]
    apply foldl_addCand_mem m rest
    intro kv hkv
    by_cases hk : candKeeps m c = true
    · obtain ⟨cid, hcp, hne, hys⟩ := candKeeps_elim hk
      rw [addCand_of_keeps pool hcp hne hys] at hkv
      by_cases hs : (poolFind cid pool).isSome = true
      · rw [if_pos hs] at hkv
        exact h kv hkv
      · rw [if_neg hs] at hkv
        rcases List.mem_append.mp hkv with h1 | h2
        · exact h kv h1
        · rw [List.mem_singleton] at h2
          subst h2
          exact ⟨hcp, hne, hys⟩
    · rw [addCand_of_not_keeps pool (by simpa using hk)] at hkv
      exact h kv hkv

theorem buildPool_eq (m : Int) (refs cits recs : List Cand) :
    buildPool m refs cits recs = ((refs ++ cits) ++ recs).foldl (addCand m) [] := by
  simp [buildPool, List.foldl_append]

/-- C3: when the fetched reference, citation, and recommendation lists share
an overlapping identifier, the candidate pool holds exactly one entry for it
(pool keys are nodup), equal to the first-encountered record among the
surviving records in processing order — references before citations before
recommendations; and records lacking a (truthy) identifier never enter the
pool. -/
theorem dedup_spec (m : Int) (refs cits recs : List Cand) (rid : String) :
    poolFind rid (buildPool m refs cits recs) =
      (((refs ++ cits) ++ recs).filter (candKeeps m)).find?
        (fun c => c.paperId == some rid) ∧
    ((buildPool m refs cits recs).map Prod.fst).Nodup ∧
    (buildPool m refs cits recs).Forall
      (fun kv => kv.2.paperId = some kv.1 ∧ kv.1 ≠ "") := by
  refine ⟨?_, ?_, ?_⟩
  · rw [buildPool_eq, foldl_addCand_poolFind]
    simp [poolFind, optOr]
  · rw [buildPool_eq]
    exact foldl_addCand_nodup m _ [] (by simp)
  · rw [buildPool_eq, List.forall_iff_forall_mem]
    intro kv hkv
    have h := foldl_addCand_mem m _ [] (by simp) kv hkv
    exact ⟨h.1, h.2.1⟩

/-- A reference record carrying the explicit year 0. -/
def candY0 : Cand := { paperId := some "X", year := some 0 }

/-- C7 counterexample: a fetched reference with the known year 0 — strictly
below `minYear = 2010` — nevertheless appears in the candidate pool, because
the filter `if y and y < min_year` treats the falsy year 0 like a missing
year. -/
theorem year_filter_counterexample :
    candY0.year = some 0 ∧ (0 : Int) < 2010 ∧
    poolFind "X" (buildPool 2010 [candY0] [] []) = some candY0 := by
  refine ⟨rfl, by norm_num, ?_⟩
  rfl

/-- C7 amended: every pool member's year is either falsy (absent or the
literal 0, which the truthiness test treats as unknown) or at least
`minYear`; and a record with no year — or with year 0 — always survives the
year filter.  The original claim holds for nonzero known years but fails for
the known year 0. -/
theorem year_filter_spec (m : Int) (refs cits recs : List Cand) (c : Cand) :
    ((buildPool m refs cits recs).Forall fun kv =>
      kv.2.year.getD 0 = 0 ∨ m ≤ kv.2.year.getD 0) ∧
    yearSkip m { c with year := none } = false ∧
    yearSkip m { c with year := some 0 } = false := by
  refine ⟨?_, by simp [yearSkip], by simp [yearSkip]⟩
  rw [buildPool_eq, List.forall_iff_forall_mem]
  intro kv hkv
  have h := (foldl_addCand_mem m _ [] (by simp) kv hkv).2.2
  unfold yearSkip at h
  simp only [Bool.and_eq_false_iff, decide_eq_false_iff_not, not_not] at h
  rcases h with h | h
  · exact Or.inl h
  · exact Or.inr (le_of_not_lt h)

/-- Python `x or 0` on the citationCount field (line 321): the falsy values
`None` and `0` become `0`; every other integer — including negative ones,
which are truthy in Python — passes through unchanged. -/
def pyOrZero (x : Option Int) : Int := x.getD 0

/-- The argument `1 + cites` handed to `math.log` on line 322. -/
def citeLogArg (citationCount : Option Int) : Int := 1 + pyOrZero citationCount

/-- The citation raw-feature computation of lines 320-322:

    cites = c.get("citationCount") or 0
    c["citeScore"] = math.log(1 + cites)

`math.log` raises `ValueError` on a non-positive argument.  The feature value
itself is the natural logarithm of the returned argument (strictly monotone,
so the argument determines it); `Except.error` marks the raising runs. -/
def citeScore (citationCount : Option Int) : Except Unit Int :=
  if citeLogArg citationCount ≤ 0 then Except.error ()
  else Except.ok (citeLogArg citationCount)

/-- C4 counterexample: for `citationCount = -1` the code computes
`math.log(1 + (-1)) = math.log(0)`, which raises `ValueError`; the negative
count is passed through unchanged (`or 0` only replaces falsy values), so the
computation is neither "negative treated as 0" nor total. -/
theorem cite_score_counterexample :
    citeScore (some (-1)) = Except.error () ∧ pyOrZero (some (-1)) = -1 := by
  constructor <;> rfl

/-- C4 amended: the raw citation feature equals the natural logarithm of
`1 + citationCount`, where a missing (`None`) citation count is treated as 0;
a negative count is passed through unchanged by the `or 0` guard, so the
computation raises `ValueError` for every `citationCount ≤ -1` and is total
only on missing or non-negative counts. -/
theorem cite_score_spec (n : Int) :
    (0 ≤ n → citeScore (some n) = Except.ok (1 + n)) ∧
    (n ≤ -1 → citeScore (some n) = Except.error ()) ∧
    citeScore none = Except.ok 1 := by
  refine ⟨fun h => ?_, fun h => ?_, rfl⟩
  · have hn : ¬citeLogArg (some n) ≤ 0 := by
      simp only [citeLogArg, pyOrZero, Option.getD_some]
      omega
    simp only [citeScore, hn, if_false]
    simp only [citeLogArg, pyOrZero, Option.getD_some]
  · have hn : citeLogArg (some n) ≤ 0 := by
      simp only [citeLogArg, pyOrZero, Option.getD_some]
      omega
    simp [citeScore, hn]

/-- Witness for `cite_score_spec` at citation counts 5 and -2. -/
theorem cite_score_spec_witness :
    ((0 : Int) ≤ 5 ∧ citeScore (some 5) = Except.ok 6) ∧
    ((-2 : Int) ≤ -1 ∧ citeScore (some (-2)) = Except.error ()) :=
  ⟨⟨by norm_num, (cite_score_spec 5).1 (by norm_num)⟩,
    ⟨by norm_num, (cite_score_spec (-2)).2.1 (by norm_num)⟩⟩

/-- Python whitespace for `str.strip()` / `str.split()` (ASCII subset). -/
def isSpaceC (c : Char) : Bool :=
  c = ' ' || c = '\t' || c = '\n' || c = '\r' || c = '\x0b' || c = '\x0c'

/-- Python `str.strip()` on the underlying character list. -/
def stripL (l : List Char) : List Char :=
  ((l.dropWhile isSpaceC).reverse.dropWhile isSpaceC).reverse

/-- Python `str.strip()`.  (Lean's own `String.trim` is byte-position based
and is replaced by the character-list implementation for executability.) -/
def pyStrip (s : String) : String := String.mk (stripL s.data)

/-- Python `str.lower()` on one ASCII character. -/
def lowerC (c : Char) : Char :=
  if 'A' ≤ c && c ≤ 'Z' then Char.ofNat (c.toNat + 32) else c

/-- `needle` begins `hay`. -/
def startsWithL : List Char → List Char → Bool
  | _, [] => true
  | [], _ :: _ => false
  | a :: as, b :: bs => a = b && startsWithL as bs

/-- Python `needle in hay` substring containment. -/
def containsL (hay needle : List Char) : Bool :=
  match hay with
  | [] => needle.isEmpty
  | _ :: t => startsWithL hay needle || containsL t needle

/-- Number of words of Python `str.split()` (maximal nonblank runs). -/
def wordCount (l : List Char) : Nat :=
  (l.foldl
    (fun (p : Nat × Bool) c =>
      if isSpaceC c then (p.1, false)
      else if p.2 then p else (p.1 + 1, true))
    (0, false)).1

/-- The non-paper title markers of `is_valid_paper` (lines 366-369). -/
def invalidPatterns : List String :=
  ["doi:", "http://", "https://", "www.", "github.com", "arxiv.org"]

/-- `is_valid_paper` (lines 355-381): reject a stripped title shorter than 5
characters, a title whose lowercase form contains a non-paper marker, and a
single-word title; the year is not required. -/
def isValidPaper (p : Cand) : Bool :=
  let title := stripL (p.title.getD "").data
  if title.length < 5 then false
  else
    let tl := title.map lowerC
    if invalidPatterns.any fun pat => containsL tl pat.data then false
    else if wordCount title ≤ 1 then false
    else true

/-- The collaborator layer (spec section 6): the reference / citation /
recommendation / search fetchers, abstracted as pure functions from their
arguments to the record lists they return. -/
structure FetchEnv where
  refs : String → Nat → List Cand
  cits : String → Nat → List Cand
  recs : String → Nat → List Cand
  search : String → Nat → List Cand

/-- One collaborator call, tracing which fetches an invocation performs. -/
inductive FetchCall where
  | refs (pid : String) (limit : Nat)
  | cits (pid : String) (limit : Nat)
  | recs (pid : String) (limit : Nat)
  | search (query : String) (k : Nat)
deriving Repr, DecidableEq

/-- The fallback insertion of lines 261-265: add a searched record when its
identifier is truthy, differs from the anchor's own id, and is not yet in the
pool.  No year filter applies on this path. -/
def addFallback (pid : String) (pool : List (String × Cand)) (c : Cand) :
    List (String × Cand) :=
  match c.paperId with
  | none => pool
  | some sid =>
    if sid = "" then pool
    else if sid = pid then pool
    else if (poolFind sid pool).isSome then pool
    else pool ++ [(sid, c)]

/-- `find_top_papers_for_paper` (lines 185-344): a falsy anchor identifier
logs an error and returns the plain empty list with no fetch performed;
otherwise references, citations and (when `max_similar > 0`) recommendations
are fetched and pooled; an empty pool triggers the keyword-search fallback
over `max(top_k * 5, 40)` results; a pool that is still empty returns the
empty list; otherwise the candidates are ranked by `rankPipeline`.  The
second component is the trace of collaborator calls performed.  The returned
candidates are the ranked records, scores dropped. -/
def findTopPapers (env : FetchEnv) (anchor : Cand) (minYear : Int)
    (maxRefs maxCits maxSimilar topK : Nat) (fsim frec fcit : Cand → ℚ)
    (ws wr wc : ℚ) : List Cand × List FetchCall :=
  match anchor.paperId with
  | none => ([], [])
  | some pid =>
    if pid = "" then ([], [])
    else
      let refsL := env.refs pid maxRefs
      let citsL := env.cits pid maxCits
      let recsL := if 0 < maxSimilar then env.recs pid maxSimilar else []
      let calls := [FetchCall.refs pid maxRefs, FetchCall.cits pid maxCits] ++
        (if 0 < maxSimilar then [FetchCall.recs pid maxSimilar] else [])
      let pool := buildPool minYear refsL citsL recsL
      if pool.isEmpty then
        let qt := pyStrip ((anchor.title.getD "") ++ " " ++ (anchor.abstract.getD ""))
        let q := if qt = "" then anchor.title.getD "" else qt
        let fk := max (topK * 5) 40
        let seeds := env.search q fk
        let pool2 := seeds.foldl (addFallback pid) []
        let calls2 := calls ++ [FetchCall.search q fk]
        if pool2.isEmpty then ([], calls2)
        else
          ((rankPipeline fsim frec fcit ws wr wc topK (pool2.map Prod.snd)).map Prod.fst,
            calls2)
      else
        ((rankPipeline fsim frec fcit ws wr wc topK (pool.map Prod.snd)).map Prod.fst,
          calls)

/-- The MODE 1 JSON output of lines 477-494 hardcodes `"success": True`;
there is no failure value whatever the result list is. -/
def mode1Success (validPapers : List Cand) : Bool := true

/-- A fetch environment in which every collaborator call returns nothing. -/
def emptyEnv : FetchEnv where
  refs := fun _ _ => []
  cits := fun _ _ => []
  recs := fun _ _ => []
  search := fun _ _ => []

/-- C6 counterexample: a missing anchor identifier is NOT reported as a
failure distinguishable from the successful empty outcome.  The entry point
returns the same plain empty list for a no-id anchor as for an anchored run
whose fetches and fallback all come back empty, and the CLI JSON `success`
flag is the literal `True` either way. -/
theorem missing_anchor_counterexample :
    (findTopPapers emptyEnv { paperId := none } 2000 100 100 0 10
        (fun _ => 0) (fun _ => 0) (fun _ => 0) (55 / 100) (20 / 100) (25 / 100)).1 =
      (findTopPapers emptyEnv { paperId := some "A1", title := some "T" } 2000 100 100 0 10
        (fun _ => 0) (fun _ => 0) (fun _ => 0) (55 / 100) (20 / 100) (25 / 100)).1 ∧
    mode1Success [] = true := by
  constructor <;> rfl

/-- C6 amended: an anchor whose identifier is missing (or empty, which is
equally falsy) causes `find_top_papers_for_paper` to perform no collaborator
fetch and return the plain empty list after logging to stderr; that return
value is identical to the successful empty-result outcome, and the caller's
JSON `success` flag is the constant `True`, so the failure is not
distinguishable by the caller. -/
theorem missing_anchor_spec (env : FetchEnv) (anchor : Cand) (minYear : Int)
    (maxRefs maxCits maxSimilar topK : Nat) (fsim frec fcit : Cand → ℚ)
    (ws wr wc : ℚ) (papers : List Cand)
    (h : anchor.paperId = none ∨ anchor.paperId = some "") :
    findTopPapers env anchor minYear maxRefs maxCits maxSimilar topK
      fsim frec fcit ws wr wc = ([], []) ∧
    mode1Success papers = true := by
  refine ⟨?_, rfl⟩
  rcases h with h | h <;> simp [findTopPapers, h]

/-- Witness for `missing_anchor_spec` at a concrete no-id anchor. -/
theorem missing_anchor_spec_witness :
    (({ paperId := none } : Cand).paperId = none ∨
      ({ paperId := none } : Cand).paperId = some "") ∧
    findTopPapers emptyEnv { paperId := none } 2000 100 100 0 10
      (fun _ => 0) (fun _ => 0) (fun _ => 0) (55 / 100) (20 / 100) (25 / 100) = ([], []) ∧
    mode1Success [] = true :=
  ⟨Or.inl rfl,
    missing_anchor_spec emptyEnv { paperId := none } 2000 100 100 0 10
      (fun _ => 0) (fun _ => 0) (fun _ => 0) (55 / 100) (20 / 100) (25 / 100) []
      (Or.inl rfl)⟩

/-- Loop state for the MODE 1 accumulate-and-refetch loop (lines 422-465). -/
structure Mode1State where
  valid : List Cand
  accumulated : List Cand
  seen : List String
  fetchCount : Nat
  attempts : Nat
deriving Repr

/-- The per-record body of the accumulation loop (lines 443-448): append a
fetched record when its identifier is truthy and unseen, marking it seen. -/
def accumStep (p : List Cand × List String) (c : Cand) : List Cand × List String :=
  match c.paperId with
  | none => p
  | some cid =>
    if cid = "" then p
    else if cid ∈ p.2 then p
    else (p.1 ++ [c], p.2 ++ [cid])

/-- Lines 454-459: when `--exclude-ids` was given, drop papers whose
identifier is excluded (`p.get('paperId') not in exclude_ids`); otherwise the
list passes through. -/
def exclFilter (excl : List String) (l : List Cand) : List Cand :=
  if excl.isEmpty then l
  else l.filter fun c => decide (∀ e ∈ excl, c.paperId ≠ some e)

/-- The MODE 1 "keep fetching until at least 2 valid papers" loop (lines
431-465): fetch `fetchCount` related papers through
`find_top_papers_for_paper` (parameters of lines 433-440: `min_year=2000`,
`max_references=100`, `max_citations=100`, `max_similar=0`, default weights),
accumulate and deduplicate against `seen`, recompute the valid list, filter
out excluded ids, and either grow `fetchCount` by 50 (capped at 300) and
retry, or stop.  `attempts` counts fetch attempts. -/
def mode1Loop (env : FetchEnv) (excl : List String) (pid ttl abt : String)
    (fsim frec fcit : Cand → ℚ) (st : Mode1State) : Mode1State :=
  if h : st.valid.length < 2 ∧ st.fetchCount ≤ 300 then
    let related := (findTopPapers env
      { paperId := some pid, title := some ttl, abstract := some abt }
      2000 100 100 0 st.fetchCount fsim frec fcit (55 / 100) (20 / 100) (25 / 100)).1
    let acc2 := related.foldl accumStep (st.accumulated, st.seen)
    let valid2 := exclFilter excl (acc2.1.filter isValidPaper)
    if h2 : valid2.length < 2 ∧ st.fetchCount < 300 then
      mode1Loop env excl pid ttl abt fsim frec fcit
        { valid := valid2, accumulated := acc2.1, seen := acc2.2,
          fetchCount := min (st.fetchCount + 50) 300, attempts := st.attempts + 1 }
    else
      { valid := valid2, accumulated := acc2.1, seen := acc2.2,
        fetchCount := st.fetchCount, attempts := st.attempts + 1 }
  else st
termination_by 301 - st.fetchCount
decreasing_by
  simp_wf
  omega

/-- MODE 1 (lines 409-465): initial state of lines 423-430 — `seen` starts as
the exclusion set plus the anchor's own id, `fetch_count` as
`max(10, 2 + len(exclude_ids))` when exclusions exist and 10 otherwise.
`excl` models the parsed `--exclude-ids` set (its distinct members). -/
def mode1Run (env : FetchEnv) (excl : List String) (pid ttl abt : String)
    (fsim frec fcit : Cand → ℚ) : Mode1State :=
  mode1Loop env excl pid ttl abt fsim frec fcit
    { valid := [], accumulated := [], seen := excl ++ [pid],
      fetchCount := if excl.isEmpty then 10 else max 10 (2 + excl.length),
      attempts := 0 }

/-- Loop state for the MODE 2 topic-seed loop (lines 511-525). -/
structure Mode2State where
  valid : List Cand
  fetchCount : Nat
  attempts : Nat
deriving Repr

/-- The MODE 2 "keep fetching until at least 4 valid papers" loop (lines
516-525): search `fetchCount` papers for the topic, filter the valid ones,
and either grow `fetchCount` by 20 and retry (while it is at most 100) or
stop. -/
def mode2Loop (env : FetchEnv) (topic : String) (st : Mode2State) : Mode2State :=
  if h : st.valid.length < 4 ∧ st.fetchCount ≤ 100 then
    let valid1 := (env.search topic st.fetchCount).filter isValidPaper
    if valid1.length < 4 then
      mode2Loop env topic
        { valid := valid1, fetchCount := st.fetchCount + 20, attempts := st.attempts + 1 }
    else
      { valid := valid1, fetchCount := st.fetchCount, attempts := st.attempts + 1 }
  else st
termination_by 101 - st.fetchCount
decreasing_by
  simp_wf
  omega

/-- MODE 2 (lines 502-532): the loop starts at `fetch_count = 40`. -/
def mode2Run (env : FetchEnv) (topic : String) : Mode2State :=
  mode2Loop env topic { valid := [], fetchCount := 40, attempts := 0 }

theorem mode1Loop_attempts_le (env : FetchEnv) (excl : List String) (pid ttl abt : String)
    (fsim frec fcit : Cand → ℚ) :
    ∀ (n : Nat) (st : Mode1State), 301 - st.fetchCount ≤ n →
      (mode1Loop env excl pid ttl abt fsim frec fcit st).attempts ≤
        st.attempts + (if st.fetchCount ≤ 300 then (349 - st.fetchCount) / 50 + 1 else 0) := by
  intro n
  induction n with
  | zero =>
    intro st hst
    rw [mode1Loop]
    rw [dif_neg fun hc => absurd hc.2 (by omega)]
    exact Nat.le_add_right _ _
  | succ n ih =>
    intro st hst
    rw [mode1Loop]
    by_cases hc : st.valid.length < 2 ∧ st.fetchCount ≤ 300
    · rw [dif_pos hc]
      dsimp only
      split
      next h2 =>
        refine le_trans (ih _ ?_) ?_
        · show 301 - min (st.fetchCount + 50) 300 ≤ n
          omega
        · show st.attempts + 1 +
              (if min (st.fetchCount + 50) 300 ≤ 300
                then (349 - min (st.fetchCount + 50) 300) / 50 + 1 else 0) ≤
            st.attempts + (if st.fetchCount ≤ 300 then (349 - st.fetchCount) / 50 + 1 else 0)
          rw [if_pos (min_le_right _ _), if_pos hc.2]
          omega
      next h2 =>
        rw [if_pos hc.2]
        show st.attempts + 1 ≤ st.attempts + ((349 - st.fetchCount) / 50 + 1)
        omega
    · rw [dif_neg hc]
      exact Nat.le_add_right _ _

theorem mode2Loop_attempts_le (env : FetchEnv) (topic : String) :
    ∀ (n : Nat) (st : Mode2State), 101 - st.fetchCount ≤ n →
      (mode2Loop env topic st).attempts ≤
        st.attempts + (if st.fetchCount ≤ 100 then (100 - st.fetchCount) / 20 + 1 else 0) := by
  intro n
  induction n with
  | zero =>
    intro st hst
    rw [mode2Loop]
    rw [dif_neg fun hc => absurd hc.2 (by omega)]
    exact Nat.le_add_right _ _
  | succ n ih =>
    intro st hst
    rw [mode2Loop]
    by_cases hc : st.valid.length < 4 ∧ st.fetchCount ≤ 100
    · rw [dif_pos hc]
      dsimp only
      split
      next h2 =>
        refine le_trans (ih _ ?_) ?_
        · show 101 - (st.fetchCount + 20) ≤ n
          omega
        · show st.attempts + 1 +
              (if st.fetchCount + 20 ≤ 100 then (100 - (st.fetchCount + 20)) / 20 + 1 else 0) ≤
            st.attempts + (if st.fetchCount ≤ 100 then (100 - st.fetchCount) / 20 + 1 else 0)
          rw [if_pos hc.2]
          by_cases h100 : st.fetchCount + 20 ≤ 100
          · rw [if_pos h100]
            omega
          · rw [if_neg h100]
            omega
      next h2 =>
        rw [if_pos hc.2]
        show st.attempts + 1 ≤ st.attempts + ((100 - st.fetchCount) / 20 + 1)
        omega
    · rw [dif_neg hc]
      exact Nat.le_add_right _ _

/-- C9: both "fetch more until enough valid results" loops perform a bounded
number of fetch attempts for every environment and every exclusion set, even
when the validity filter rejects every fetched record: the MODE 1
related-paper loop (target 2, step 50, cap 300) fetches at most 7 times, the
MODE 2 topic-seed loop (target 4, step 20, cap 100) at most 4 times. -/
theorem fetch_loops_bounded (env env2 : FetchEnv) (excl : List String)
    (pid ttl abt topic : String) (fsim frec fcit : Cand → ℚ) :
    (mode1Run env excl pid ttl abt fsim frec fcit).attempts ≤ 7 ∧
    (mode2Run env2 topic).attempts ≤ 4 := by
  constructor
  · unfold mode1Run
    refine le_trans
      (mode1Loop_attempts_le env excl pid ttl abt fsim frec fcit 301 _ (Nat.sub_le _ _)) ?_
    dsimp only
    have h10 : 10 ≤ if excl.isEmpty then 10 else max 10 (2 + excl.length) := by
      split
      · exact le_refl 10
      · exact le_max_left _ _
    by_cases h3 : (if excl.isEmpty then 10 else max 10 (2 + excl.length)) ≤ 300
    · rw [if_pos h3]
      omega
    · rw [if_neg h3]
      omega
  · unfold mode2Run
    refine le_trans (mode2Loop_attempts_le env2 topic 101 _ (Nat.sub_le _ _)) ?_
    norm_num

theorem accumStep_cases (p : List Cand × List String) (c : Cand) :
    accumStep p c = p ∨
    ∃ cid, c.paperId = some cid ∧ cid ∉ p.2 ∧
      accumStep p c = (p.1 ++ [c], p.2 ++ [cid]) := by
  rcases hc : c.paperId with _ | cid
  · refine Or.inl ?_
    simp [accumStep, hc]
  · simp only [accumStep, hc]
    by_cases h1 : cid = ""
    · rw [if_pos h1]
      exact Or.inl rfl
    · rw [if_neg h1]
      by_cases h2 : cid ∈ p.2
      · rw [if_pos h2]
        exact Or.inl rfl
      · rw [if_neg h2]
        exact Or.inr ⟨cid, rfl, h2, rfl⟩

theorem accumStep_seen_subset (p : List Cand × List String) (c : Cand) :
    p.2 ⊆ (accumStep p c).2 := by
  rcases accumStep_cases p c with h | ⟨cid, _, _, h⟩
  · rw [h]
    exact fun _ hx => hx
  · rw [h]
    exact List.subset_append_left _ _

theorem foldl_accumStep_seen :
    ∀ (related : List Cand) (p : List Cand × List String),
      p.2 ⊆ (related.foldl accumStep p).2
  | [], _ => fun _ h => h
  | r :: rest, p =>
    subset_trans (accumStep_seen_subset p r) (foldl_accumStep_seen rest (accumStep p r))

theorem foldl_accumStep_mem :
    ∀ (related : List Cand) (p : List Cand × List String) (c : Cand),
      c ∈ (related.foldl accumStep p).1 →
      c ∈ p.1 ∨ ∃ cid, c.paperId = some cid ∧ cid ∉ p.2
  | [], _, _, h => Or.inl h
  | r :: rest, p, c, h => by
    rw [List.foldl_cons] at h
    rcases foldl_accumStep_mem rest _ c h with h1 | ⟨cid, hcp, hns⟩
    · rcases accumStep_cases p r with he | ⟨cid, hcp, hnotin, he⟩
      · rw [he] at h1
        exact Or.inl h1
      · rw [he] at h1
        rcases List.mem_append.mp h1 with h2 | h2
        · exact Or.inl h2
        · rw [List.mem_singleton] at h2
          subst h2
          exact Or.inr ⟨cid, hcp, hnotin⟩
    · exact Or.inr ⟨cid, hcp, fun hmem => hns (accumStep_seen_subset p r hmem)⟩

theorem exclFilter_subset (excl : List String) (l : List Cand) :
    exclFilter excl l ⊆ l := by
  unfold exclFilter
  split
  · exact fun _ h => h
  · exact fun a ha => List.mem_of_mem_filter ha

theorem mode1Loop_exclusion (env : FetchEnv) (excl : List String) (pid ttl abt : String)
    (fsim frec fcit : Cand → ℚ) :
    ∀ (n : Nat) (st : Mode1State), 301 - st.fetchCount ≤ n →
      (∀ e ∈ excl, e ∈ st.seen) → pid ∈ st.seen →
      (∀ c ∈ st.accumulated, c.paperId ≠ some pid ∧ ∀ e ∈ excl, c.paperId ≠ some e) →
      (∀ c ∈ st.valid, c.paperId ≠ some pid ∧ ∀ e ∈ excl, c.paperId ≠ some e) →
      ∀ c ∈ (mode1Loop env excl pid ttl abt fsim frec fcit st).valid,
        c.paperId ≠ some pid ∧ ∀ e ∈ excl, c.paperId ≠ some e := by
  intro n
  induction n with
  | zero =>
    intro st hst hexcl hpid hacc hval
    rw [mode1Loop, dif_neg fun hc2 => absurd hc2.2 (by omega)]
    exact hval
  | succ n ih =>
    intro st hst hexcl hpid hacc hval
    rw [mode1Loop]
    by_cases hc : st.valid.length < 2 ∧ st.fetchCount ≤ 300
    · rw [dif_pos hc]
      dsimp only
      have hA : ∀ c ∈ (List.foldl accumStep (st.accumulated, st.seen)
          (findTopPapers env
            { paperId := some pid, title := some ttl, abstract := some abt }
            2000 100 100 0 st.fetchCount fsim frec fcit
            (55 / 100) (20 / 100) (25 / 100)).1).1,
          c.paperId ≠ some pid ∧ ∀ e ∈ excl, c.paperId ≠ some e := by
        intro c hcmem
        rcases foldl_accumStep_mem _ (st.accumulated, st.seen) c hcmem with
          h1 | ⟨cid, hcp, hns⟩
        · exact hacc c h1
        · constructor
          · intro hEq
            rw [hcp] at hEq
            rw [Option.some_inj.mp hEq] at hns
            exact hns hpid
          · intro e he hEq
            rw [hcp] at hEq
            rw [Option.some_inj.mp hEq] at hns
            exact hns (hexcl e he)
      split
      · refine ih _ ?_ ?_ ?_ ?_ ?_
        · show 301 - min (st.fetchCount + 50) 300 ≤ n
          have := hc.2
          omega
        · exact fun e he => foldl_accumStep_seen _ (st.accumulated, st.seen) (hexcl e he)
        · exact foldl_accumStep_seen _ (st.accumulated, st.seen) hpid
        · exact hA
        · exact fun c hcm =>
            hA c (List.mem_of_mem_filter (exclFilter_subset excl _ hcm))
      · exact fun c hcm =>
          hA c (List.mem_of_mem_filter (exclFilter_subset excl _ hcm))
    · rw [dif_neg hc]
      exact hval

/-- C10: in anchor mode, the valid-paper list the CLI ultimately returns
(its JSON `papers` field is a prefix of it) never contains the anchor's own
paper identifier nor any identifier supplied via `--exclude-ids`; the `seen`
set seeded with these ids keeps them out across every iteration of the
accumulate-and-refetch loop. -/
theorem mode1_exclusion (env : FetchEnv) (excl : List String) (pid ttl abt : String)
    (fsim frec fcit : Cand → ℚ) :
    (mode1Run env excl pid ttl abt fsim frec fcit).valid.Forall
      (fun c => c.paperId ≠ some pid ∧ ∀ e ∈ excl, c.paperId ≠ some e) := by
  rw [List.forall_iff_forall_mem]
  refine mode1Loop_exclusion env excl pid ttl abt fsim frec fcit 301 _
    (Nat.sub_le _ _) ?_ ?_ ?_ ?_
  · intro e he
    exact List.mem_append.mpr (Or.inl he)
  · exact List.mem_append.mpr (Or.inr (List.mem_singleton.mpr rfl))
  · intro c hcm
    cases hcm
  · intro c hcm
    cases hcm

/-- Modelled from the spec: the record shape the topic seeder scores (spec
section 4.5).  The seeder itself is not in `src/CongApp.py` — the repository's
other near-duplicate revisions carry it — so it is reconstructed from the
spec's words: year may be absent, citation count defaults to 0, the upstream
relevance score defaults to 1.0 when absent. -/
structure SeedRec where
  year : Option Int := none
  citationCount : Int := 0
  relevance : Option ℝ := none

/-- Python `max` over a nonempty list of reals (0 is a junk value for the
empty list, on which the pool-relative ratios are never formed). -/
noncomputable def maxR : List ℝ → ℝ
  | [] => 0
  | [x] => x
  | x :: y :: t => max x (maxR (y :: t))

/-- Modelled from the spec: topic-seeding recency
`exp(-(currentYear - year) / 5.0)`, a missing year treated as year 2000
(spec section 4.5). -/
noncomputable def topicRecency (Y : Int) (c : SeedRec) : ℝ :=
  Real.exp (-((Y : ℝ) - ((c.year.getD 2000 : Int) : ℝ)) / 5)

/-- Modelled from the spec: the topic-seeding score, a weighted sum with
weights 0.3 / 0.2 / 0.5 of recency, the pool-relative citation ratio
`citationCount / maxCitationCountInPool`, and the pool-relative relevance
ratio `relevanceScore / maxRelevanceScoreInPool` (spec sections 4.4, 4.5). -/
noncomputable def topicScore (Y : Int) (maxCite maxRel : ℝ) (c : SeedRec) : ℝ :=
  (3 / 10) * topicRecency Y c + (2 / 10) * ((c.citationCount : ℝ) / maxCite) +
    (5 / 10) * ((c.relevance.getD 1) / maxRel)

/-- Modelled from the spec: the topic seeder scores every (valid) search
result, sorts descending by the score, and returns the top `k` (spec
section 4.5). -/
noncomputable def seedByTopic (Y : Int) (k : Nat) (pool : List SeedRec) : List SeedRec :=
  let maxCite := maxR (pool.map fun c => (c.citationCount : ℝ))
  let maxRel := maxR (pool.map fun c => c.relevance.getD 1)
  (sortByDesc (topicScore Y maxCite maxRel) pool).take k

/-- C5 (spec-modelled): the topic seeder returns `min(k, poolSize)` records,
sorted non-increasingly by the weighted score
`0.3·recency + 0.2·citationRatio + 0.5·relevanceRatio`, all drawn from the
scored pool; a record with no year is scored with the year-2000 recency. -/
theorem seed_by_topic_spec (Y : Int) (k : Nat) (pool : List SeedRec) (c : SeedRec) :
    (seedByTopic Y k pool).length = min k pool.length ∧
    (seedByTopic Y k pool).Pairwise
      (fun a b =>
        topicScore Y (maxR (pool.map fun r => (r.citationCount : ℝ)))
          (maxR (pool.map fun r => r.relevance.getD 1)) b ≤
        topicScore Y (maxR (pool.map fun r => (r.citationCount : ℝ)))
          (maxR (pool.map fun r => r.relevance.getD 1)) a) ∧
    (seedByTopic Y k pool).Forall (fun x => x ∈ pool) ∧
    topicRecency Y { c with year := none } = Real.exp (-((Y : ℝ) - 2000) / 5) := by
  have hunf : seedByTopic Y k pool =
      (sortByDesc (topicScore Y (maxR (pool.map fun r => (r.citationCount : ℝ)))
        (maxR (pool.map fun r => r.relevance.getD 1))) pool).take k := rfl
  rw [hunf]
  refine ⟨?_, ?_, ?_, ?_⟩
  · simp [sortByDesc_length]
  · exact (sortByDesc_sorted _ _).sublist (List.take_sublist _ _)
  · rw [List.forall_iff_forall_mem]
    intro x hx
    exact (sortByDesc_perm _ pool).mem_iff.mp (List.mem_of_mem_take hx)
  · simp [topicRecency]
